import Mathlib

/-!
Verification development for the replicate-images command-line tool.

The Go sources are shallowly embedded: pure functions become Lean functions
over Nat and String, byte strings become List Nat (each element a byte
value), the filesystem is an explicit list of existing paths, and the
bounded worker pool becomes a step relation on a scheduler state.
-/

namespace RI

/-! ### Byte-level view of strings

Go strings are UTF-8 byte sequences; `[]byte(s)` produces the UTF-8
encoding.  We model a byte as a `Nat` (values < 256) and encode each
character by the standard UTF-8 scheme.
-/

/-- UTF-8 encoding of a single character, as byte values. -/
def utf8Bytes (c : Char) : List Nat :=
  let n := c.toNat
  if n < 0x80 then [n]
  else if n < 0x800 then
    [0xc0 + n / 64, 0x80 + n % 64]
  else if n < 0x10000 then
    [0xe0 + n / 4096, 0x80 + n / 64 % 64, 0x80 + n % 64]
  else
    [0xf0 + n / 262144, 0x80 + n / 4096 % 64, 0x80 + n / 64 % 64, 0x80 + n % 64]

/-- The UTF-8 bytes of a string, i.e. Go `[]byte(s)`. -/
def strBytes (s : String) : List Nat :=
  s.data.flatMap utf8Bytes

/-! ### SHA-256 (crypto/sha256)

A direct embedding of the SHA-256 algorithm used by `cache.Hash`.
32-bit machine words are `Nat` reduced modulo `2^32` wherever Go
wraps; the digest is the list of 32 output bytes.
-/

/-- Addition modulo 2^32. -/
def add32 (a b : Nat) : Nat := (a + b) % 4294967296

/-- Right rotation of a 32-bit word by n bits. -/
def rotr32 (n x : Nat) : Nat := (x / 2 ^ n + x % 2 ^ n * 2 ^ (32 - n)) % 4294967296

/-- Logical right shift. -/
def shr32 (n x : Nat) : Nat := x / 2 ^ n

def bigSigma0 (x : Nat) : Nat := rotr32 2 x ^^^ rotr32 13 x ^^^ rotr32 22 x
def bigSigma1 (x : Nat) : Nat := rotr32 6 x ^^^ rotr32 11 x ^^^ rotr32 25 x
def smallSigma0 (x : Nat) : Nat := rotr32 7 x ^^^ rotr32 18 x ^^^ shr32 3 x
def smallSigma1 (x : Nat) : Nat := rotr32 17 x ^^^ rotr32 19 x ^^^ shr32 10 x
def chFn (x y z : Nat) : Nat := (x &&& y) ^^^ ((x ^^^ 0xffffffff) &&& z)
def majFn (x y z : Nat) : Nat := (x &&& y) ^^^ (x &&& z) ^^^ (y &&& z)

/-- The eight 32-bit words of the SHA-256 running hash state. -/
structure H8 where
  a : Nat
  b : Nat
  c : Nat
  d : Nat
  e : Nat
  f : Nat
  g : Nat
  h : Nat

/-- SHA-256 initial hash value (FIPS 180-4, written in decimal). -/
def initH : H8 :=
  ⟨1779033703, 3144134277, 1013904242, 2773480762,
   1359893119, 2600822924, 528734635, 1541459225⟩

/-- SHA-256 round constants (FIPS 180-4, written in decimal). -/
def K64 : List Nat :=
  [1116352408, 1899447441, 3049323471, 3921009573, 961987163,
   1508970993, 2453635748, 2870763221, 3624381080, 310598401,
   607225278, 1426881987, 1925078388, 2162078206, 2614888103,
   3248222580, 3835390401, 4022224774, 264347078, 604807628,
   770255983, 1249150122, 1555081692, 1996064986, 2554220882,
   2821834349, 2952996808, 3210313671, 3336571891, 3584528711,
   113926993, 338241895, 666307205, 773529912, 1294757372,
   1396182291, 1695183700, 1986661051, 2177026350, 2456956037,
   2730485921, 2820302411, 3259730800, 3345764771, 3516065817,
   3600352804, 4094571909, 275423344, 430227734, 506948616,
   659060556, 883997877, 958139571, 1322822218, 1537002063,
   1747873779, 1955562222, 2024104815, 2227730452, 2361852424,
   2428436474, 2756734187, 3204031479, 3329325298]

/-- Big-endian 64-bit length field of the padding. -/
def lenBytes64 (n : Nat) : List Nat :=
  [n / 2 ^ 56 % 256, n / 2 ^ 48 % 256, n / 2 ^ 40 % 256, n / 2 ^ 32 % 256,
   n / 2 ^ 24 % 256, n / 2 ^ 16 % 256, n / 2 ^ 8 % 256, n % 256]

/-- SHA-256 message padding: append 0x80, zeros to 56 mod 64, then the
bit length as an 8-byte big-endian integer. -/
def padMessage (msg : List Nat) : List Nat :=
  msg ++ 0x80 :: List.replicate ((120 - (msg.length + 1) % 64) % 64) 0
      ++ lenBytes64 (msg.length * 8)

/-- Big-endian grouping of bytes into 32-bit words. -/
def bytesToWords : List Nat → List Nat
  | b0 :: b1 :: b2 :: b3 :: rest =>
      (((b0 * 256 + b1) * 256 + b2) * 256 + b3) :: bytesToWords rest
  | _ => []

/-- Split a padded message into 64-byte blocks. -/
def toBlocks (l : List Nat) : List (List Nat) :=
  if h : l = [] then [] else l.take 64 :: toBlocks (l.drop 64)
termination_by l.length
decreasing_by
  simp only [List.length_drop]
  have hpos : 0 < l.length := List.length_pos.mpr h
  omega

/-- One extension step of the SHA-256 message schedule. -/
def scheduleStep (w : List Nat) : List Nat :=
  w ++ [add32 (add32 (smallSigma1 (w.getD (w.length - 2) 0)) (w.getD (w.length - 7) 0))
              (add32 (smallSigma0 (w.getD (w.length - 15) 0)) (w.getD (w.length - 16) 0))]

/-- Extend the 16 block words to the 64 schedule words. -/
def schedule (w16 : List Nat) : List Nat :=
  (List.range 48).foldl (fun w _ => scheduleStep w) w16

/-- One SHA-256 compression round. -/
def roundStep (st : H8) (kw : Nat × Nat) : H8 :=
  let t1 := add32 st.h (add32 (bigSigma1 st.e) (add32 (chFn st.e st.f st.g) (add32 kw.1 kw.2)))
  let t2 := add32 (bigSigma0 st.a) (majFn st.a st.b st.c)
  ⟨add32 t1 t2, st.a, st.b, st.c, add32 st.d t1, st.e, st.f, st.g⟩

/-- Compress one 64-byte block into the running hash state. -/
def compressBlock (hs : H8) (block : List Nat) : H8 :=
  let w := schedule (bytesToWords block)
  let st := (K64.zip w).foldl roundStep hs
  ⟨add32 hs.a st.a, add32 hs.b st.b, add32 hs.c st.c, add32 hs.d st.d,
   add32 hs.e st.e, add32 hs.f st.f, add32 hs.g st.g, add32 hs.h st.h⟩

/-- Big-endian bytes of one 32-bit word. -/
def wordBytes (w : Nat) : List Nat :=
  [w / 2 ^ 24 % 256, w / 2 ^ 16 % 256, w / 2 ^ 8 % 256, w % 256]

/-- SHA-256 digest (32 bytes) of a byte string. -/
def sha256 (msg : List Nat) : List Nat :=
  let hs := (toBlocks (padMessage msg)).foldl compressBlock initH
  wordBytes hs.a ++ wordBytes hs.b ++ wordBytes hs.c ++ wordBytes hs.d ++
  wordBytes hs.e ++ wordBytes hs.f ++ wordBytes hs.g ++ wordBytes hs.h

/-! ### Hex encoding (encoding/hex) -/

/-- The lowercase hex alphabet used by encoding/hex. -/
def hextable : String := "0123456789abcdef"

/-- Hex digit for a value below 16 (indexing into the alphabet). -/
def hexDigit (n : Nat) : Char := hextable.data.getD n 'x'

/-- Two hex characters of one byte: high nibble then low nibble. -/
def byteHex (b : Nat) : List Char := [hexDigit (b / 16), hexDigit (b % 16)]

/-- Hex encoding of a byte string, i.e. hex.EncodeToString. -/
def hexEncode (bs : List Nat) : List Char := bs.flatMap byteHex

/-! ### cache.Hash -/

/-- Embedding of cache.Hash: SHA-256 over the prompt bytes followed by the
model bytes (the two Write calls concatenate), hex-encoded and truncated
to the first 16 characters. -/
def Hash (prompt model : String) : String :=
  ⟨(hexEncode (sha256 (strBytes prompt ++ strBytes model))).take 16⟩

/-! ### Cache store (internal/cache)

An `Entry` is one cache record; `time.Time` becomes a `Nat` timestamp
passed explicitly by the caller.  The bound file path of the Go struct
plays no role in the claims and is omitted.
-/

/-- One cache entry, as serialized in cache.json. -/
structure Entry where
  hash : String
  prompt : String
  model : String
  outputFile : String
  createdAt : Nat
deriving DecidableEq

/-- The in-memory cache: an ordered collection of entries. -/
structure Cache where
  entries : List Entry
deriving DecidableEq

/-- Embedding of Cache.Lookup: first entry whose hash matches. -/
def Cache.Lookup (c : Cache) (h : String) : Option Entry :=
  c.entries.find? (fun e => e.hash == h)

/-- Embedding of the historical Cache.Add: unconditionally appends a new
entry (this was the duplicate-entry defect). -/
def Cache.Add (c : Cache) (prompt model outputFile : String) (now : Nat) : Cache :=
  { entries := c.entries ++ [⟨Hash prompt model, prompt, model, outputFile, now⟩] }

/-- Modelled from the spec: Cache.Upsert is called by main.go but its
definition is not among the provided sources (the cache file shown there
is the pre-fix version with Add).  Per the spec, upsert computes the
fingerprint internally; if an entry with that fingerprint exists it
replaces that entry's output-file name (keeping the original creation
timestamp, one of the two documented choices); otherwise it appends a
new entry. -/
def Cache.Upsert (c : Cache) (prompt model outputFile : String) (now : Nat) : Cache :=
  let h := Hash prompt model
  if c.entries.any (fun e => e.hash == h) then
    { entries := c.entries.map (fun e => if e.hash == h then { e with outputFile := outputFile } else e) }
  else
    { entries := c.entries ++ [⟨h, prompt, model, outputFile, now⟩] }

/-- Number of entries carrying a given fingerprint. -/
def countHash (c : Cache) (h : String) : Nat :=
  (c.entries.filter (fun e => e.hash == h)).length

/-! ### Filesystem and the cache-hit decision

The filesystem is the list of currently existing paths; os.Stat
succeeding is membership.  filepath.Join of a directory and a relative
file name is directory/name.
-/

/-- Path join as used for output files: directory/name. -/
def pathJoin (dir name : String) : String := dir ++ "/" ++ name

/-- The two planned states of one prompt: already satisfied by cache, or
needing generation.  The lookup path has no error outcome. -/
inductive ItemStatus where
  | cached
  | pending
deriving DecidableEq

/-- The hit decision shared by runGenerate and runBatch: with the cache
not bypassed, a fingerprint is a hit exactly when Lookup finds an entry
and the referenced output file exists on disk. -/
def statusFor (noCache : Bool) (c : Cache) (fs : List String) (outDir h : String) : ItemStatus :=
  if noCache then .pending
  else
    match c.Lookup h with
    | some e => if pathJoin outDir e.outputFile ∈ fs then .cached else .pending
    | none => .pending

/-! ### Batch processing (cmd/replicate-images/main.go) -/

/-- One prompt/model pair of the batch YAML file. -/
structure PromptEntry where
  prompt : String
  model : String
deriving DecidableEq

/-- A prompt without a model uses the default (the --model flag value). -/
def resolveModel (defModel m : String) : String :=
  if m = "" then defModel else m

/-- Planned status of one batch item, after model resolution. -/
def plannedStatus (noCache : Bool) (c : Cache) (fs : List String) (outDir defModel : String)
    (p : PromptEntry) : ItemStatus :=
  statusFor noCache c fs outDir (Hash p.prompt (resolveModel defModel p.model))

/-- Accumulator of the categorize loop of runBatch: items to generate,
the dry-run report lines, and the cached count. -/
structure CatState where
  toGenerate : List PromptEntry
  dryPrompts : List (String × String × ItemStatus)
  cachedCount : Nat
deriving DecidableEq

/-- One iteration of the categorize loop: a hit is recorded as cached,
a miss is queued for generation with its resolved model. -/
def catStep (noCache : Bool) (c : Cache) (fs : List String) (outDir defModel : String)
    (st : CatState) (p : PromptEntry) : CatState :=
  let model := resolveModel defModel p.model
  match statusFor noCache c fs outDir (Hash p.prompt model) with
  | .cached =>
      { st with dryPrompts := st.dryPrompts ++ [(p.prompt, model, .cached)],
                cachedCount := st.cachedCount + 1 }
  | .pending =>
      { st with toGenerate := st.toGenerate ++ [⟨p.prompt, model⟩],
                dryPrompts := st.dryPrompts ++ [(p.prompt, model, .pending)] }

/-- The sequential partition step of runBatch, before any worker starts. -/
def categorize (noCache : Bool) (c : Cache) (fs : List String) (outDir defModel : String)
    (ps : List PromptEntry) : CatState :=
  ps.foldl (catStep noCache c fs outDir defModel) ⟨[], [], 0⟩

/-! Exit codes for agent-friendly operation (main.go). -/

def ExitSuccess : Nat := 0
def ExitPartialFail : Nat := 1
def ExitTotalFail : Nat := 2
def ExitInvalidInput : Nat := 3

/-- Default of the --concurrency flag of the batch command. -/
def defaultConcurrency : Nat := 3

/-- Filesystem effects of one command run: generator invocations made,
whether the output directory was created, output files written, and
whether the cache file was saved.  Reading the cache file is the one
effect every run performs and is not tracked. -/
structure Effects where
  invoked : Nat
  mkdirOutput : Bool
  wrote : List String
  savedCache : Bool
deriving DecidableEq

/-- No filesystem effects at all. -/
def cleanEffects : Effects := ⟨0, false, [], false⟩

/-- The dry-run report: counts plus one (prompt, model, status) line per
input prompt. -/
structure DryReport where
  toGenerate : Nat
  cached : Nat
  prompts : List (String × String × ItemStatus)
deriving DecidableEq

/-- Result of one batch run: process exit code, effects, and the dry-run
report when one was produced. -/
structure BatchRun where
  exit : Nat
  effects : Effects
  dryReport : Option DryReport
deriving DecidableEq

/-- Embedding of runBatch.  `input` is the result of reading and parsing
the YAML file (error covers an unreadable file and malformed YAML);
`gen p m` tells whether generating and writing the image for one pending
item succeeds; `saveOk` tells whether the final cache save succeeds.
Each pending item is invoked exactly once; per-item failures never
remove other items, and the per-item outcomes are classified after all
workers finish exactly as in main.go lines 598-604. -/
def runBatchModel (dryRun noCache : Bool) (input : Except Unit (List PromptEntry))
    (c : Cache) (fs : List String) (outDir defModel : String)
    (gen : String → String → Bool) (saveOk : Bool) : BatchRun :=
  match input with
  | .error _ => ⟨ExitInvalidInput, cleanEffects, none⟩
  | .ok ps =>
    if ps.isEmpty then ⟨ExitInvalidInput, cleanEffects, none⟩
    else
      let cat := categorize noCache c fs outDir defModel ps
      if dryRun then
        ⟨ExitSuccess, cleanEffects, some ⟨cat.toGenerate.length, cat.cachedCount, cat.dryPrompts⟩⟩
      else if cat.toGenerate.isEmpty then
        ⟨ExitSuccess, ⟨0, true, [], false⟩, none⟩
      else
        let errored := (cat.toGenerate.filter (fun q => !(gen q.prompt q.model))).length
        let written := (cat.toGenerate.filter (fun q => gen q.prompt q.model)).map
          (fun q => pathJoin outDir (Hash q.prompt q.model ++ ".webp"))
        let effects : Effects := ⟨cat.toGenerate.length, true, written, true⟩
        if !saveOk then ⟨ExitPartialFail, effects, none⟩
        else if errored > 0 then
          if errored = cat.toGenerate.length then ⟨ExitTotalFail, effects, none⟩
          else ⟨ExitPartialFail, effects, none⟩
        else ⟨ExitSuccess, effects, none⟩

/-! ### Single-prompt path (runGenerate) -/

/-- Outcome of the generate-then-save sequence for the one prompt:
the remote call (or the download inside it) fails, the image write
fails, or everything succeeds. -/
inductive GenOutcome where
  | ok
  | genFail
  | saveFail
deriving DecidableEq

/-- Result of one single-prompt run: exit code, effects, the dry-run
status when --dry-run was given, and the statuses of the structured
records emitted in JSON mode. -/
structure SingleRun where
  exit : Nat
  effects : Effects
  dryStatus : Option ItemStatus
  emitted : List String
deriving DecidableEq

/-- Embedding of runGenerate plus main's error handling: a dry run only
consults the cache; otherwise the output directory is created, a cache
hit returns immediately, and a generation error is JSON-reported with a
nil return (exit 0) in JSON mode but returned as an error (exit
ExitPartialFail) otherwise. -/
def runGenerateModel (dryRun jsonMode noCache : Bool) (c : Cache) (fs : List String)
    (outDir model prompt : String) (outcome : GenOutcome) (saveOk : Bool) : SingleRun :=
  let h := Hash prompt model
  let st := statusFor noCache c fs outDir h
  if dryRun then
    ⟨ExitSuccess, cleanEffects, some st, []⟩
  else
    match st with
    | .cached => ⟨ExitSuccess, ⟨0, true, [], false⟩, none, if jsonMode then ["cached"] else []⟩
    | .pending =>
      match outcome with
      | .genFail =>
          if jsonMode then ⟨ExitSuccess, ⟨1, true, [], false⟩, none, ["error"]⟩
          else ⟨ExitPartialFail, ⟨1, true, [], false⟩, none, []⟩
      | .saveFail => ⟨ExitPartialFail, ⟨1, true, [], false⟩, none, []⟩
      | .ok =>
          let outPath := pathJoin outDir (h ++ ".webp")
          if saveOk then
            ⟨ExitSuccess, ⟨1, true, [outPath], true⟩, none, if jsonMode then ["generated"] else []⟩
          else ⟨ExitPartialFail, ⟨1, true, [outPath], true⟩, none, []⟩

/-! ### Validation (runValidate) -/

/-- Summary counts of the validation report. -/
structure VSummary where
  total : Nat
  unique : Nat
  duplicates : Nat
  empty : Nat
deriving DecidableEq

/-- The validation report. -/
structure VResult where
  valid : Bool
  errors : List String
  warnings : List String
  summary : VSummary
deriving DecidableEq

/-- Accumulator of the validation loop; `seen` is the Go map from
join-key to 1-based index (insertion ordered), `idx` the loop index. -/
structure VState where
  errors : List String
  warnings : List String
  seen : List (String × Nat)
  empty : Nat
  idx : Nat
deriving DecidableEq

/-- The join-key used for duplicate detection: prompt + "|" + model. -/
def vKey (defModel : String) (p : PromptEntry) : String :=
  p.prompt ++ "|" ++ resolveModel defModel p.model

/-- Error message for an empty prompt at 1-based position i. -/
def emptyMsg (i : Nat) : String :=
  "prompt " ++ toString i ++ ": empty prompt text"

/-- Warning message for a duplicate at position i of the pair first seen
at position prev. -/
def dupMsg (i prev : Nat) : String :=
  "prompt " ++ toString i ++ ": duplicate of prompt " ++ toString prev ++ " (same prompt+model)"

/-- One iteration of the validation loop: an empty prompt is an error
(and skips the duplicate check); a repeated join-key is a warning; a
fresh join-key is recorded. -/
def vStep (defModel : String) (st : VState) (p : PromptEntry) : VState :=
  if p.prompt = "" then
    { st with errors := st.errors ++ [emptyMsg (st.idx + 1)], empty := st.empty + 1, idx := st.idx + 1 }
  else
    match st.seen.find? (fun q => q.1 == vKey defModel p) with
    | some prev =>
        { st with warnings := st.warnings ++ [dupMsg (st.idx + 1) prev.2], idx := st.idx + 1 }
    | none =>
        { st with seen := st.seen ++ [(vKey defModel p, st.idx + 1)], idx := st.idx + 1 }

/-- Embedding of runValidate's analysis: the no-prompts check, the
per-prompt loop, and the summary with duplicates computed as
total - unique - empty. -/
def validate (defModel : String) (ps : List PromptEntry) : VResult :=
  let initErrors : List String := if ps.isEmpty then ["no prompts found in file"] else []
  let st := ps.foldl (vStep defModel) ⟨initErrors, [], [], 0, 0⟩
  { valid := st.errors.isEmpty
    errors := st.errors
    warnings := st.warnings
    summary := ⟨ps.length, st.seen.length, ps.length - st.seen.length - st.empty, st.empty⟩ }

/-! ### Output-shape normalization (client.extractImageURL) -/

/-- The dynamic shape of a Replicate model output: a direct string, an
array, an object, or any other dynamic type. -/
inductive RepOutput where
  | str : String → RepOutput
  | list : List RepOutput → RepOutput
  | obj : List (String × RepOutput) → RepOutput
  | other : RepOutput

/-- The known object field names, probed in this order. -/
def knownKeys : List String := ["url", "image", "output", "uri"]

/-- Key lookup in an output object. -/
def objLookup (fields : List (String × RepOutput)) (k : String) : Option RepOutput :=
  (fields.find? (fun q => q.1 == k)).map (fun q => q.2)

/-- The field-probing loop of the map case: a key that is present but
not a string is skipped, not an error. -/
def extractFromObj (fields : List (String × RepOutput)) : List String → Except String String
  | [] => .error "no image URL found in output object"
  | k :: ks =>
    match objLookup fields k with
    | some (RepOutput.str s) => .ok s
    | _ => extractFromObj fields ks

/-- Embedding of extractImageURL: a string is returned directly, a
non-empty array recurses on its first element, an object is probed for
the known keys, everything else is an error. -/
def extractImageURL : RepOutput → Except String String
  | RepOutput.str s => .ok s
  | RepOutput.list [] => .error "empty output array from model"
  | RepOutput.list (v :: _) => extractImageURL v
  | RepOutput.obj fields => extractFromObj fields knownKeys
  | RepOutput.other => .error "unexpected output format"

/-- Modelled from the spec's words, for comparison with the code: an
output is recognized when it is a direct string reference, a non-empty
list whose authoritative first element is recognized, or an object in
which one of the known field names holds a string. -/
inductive SpecRecognized : RepOutput → Prop where
  | direct (s : String) : SpecRecognized (RepOutput.str s)
  | firstOfList (v : RepOutput) (rest : List RepOutput) :
      SpecRecognized v → SpecRecognized (RepOutput.list (v :: rest))
  | knownField (fields : List (String × RepOutput)) (k s : String) :
      k ∈ knownKeys → objLookup fields k = some (RepOutput.str s) →
      SpecRecognized (RepOutput.obj fields)

/-! ### Bounded worker pool (runBatch lines 517-530)

The counting semaphore is the channel `sem` of capacity C: the dispatch
loop sends into it before spawning a worker (blocking while C workers
hold slots) and each worker receives from it when done.  We model the
scheduler as a state with queued, running and finished counts and a step
relation; `running` is the number of invocations in flight.
-/

/-- Scheduler state of the batch worker pool. -/
structure PoolState where
  queued : Nat
  running : Nat
  finished : Nat
deriving DecidableEq

/-- The two scheduler transitions: dispatching one queued item (only
when a semaphore slot is free, i.e. fewer than C running) and a worker
finishing (releasing its slot). -/
inductive PoolStep (C : Nat) : PoolState → PoolState → Prop where
  | dispatch (s : PoolState) (hq : 0 < s.queued) (hr : s.running < C) :
      PoolStep C s ⟨s.queued - 1, s.running + 1, s.finished⟩
  | finish (s : PoolState) (hr : 0 < s.running) :
      PoolStep C s ⟨s.queued, s.running - 1, s.finished + 1⟩

/-- States reachable by the pool scheduler from a given initial state. -/
inductive PoolReachable (C : Nat) (init : PoolState) : PoolState → Prop where
  | refl : PoolReachable C init init
  | step (s t : PoolState) : PoolReachable C init s → PoolStep C s t → PoolReachable C init t

/-! ## Helper lemmas -/

theorem strBytes_append (s t : String) : strBytes (s ++ t) = strBytes s ++ strBytes t := by
  simp [strBytes, String.data_append, List.flatMap_append]

/-- The hash input is the plain concatenation of the two fields. -/
theorem hash_of_concat (p m : String) :
    Hash p m = ⟨(hexEncode (sha256 (strBytes (p ++ m)))).take 16⟩ := by
  rw [Hash, strBytes_append]

theorem wordBytes_length (w : Nat) : (wordBytes w).length = 4 := rfl

theorem sha256_length (msg : List Nat) : (sha256 msg).length = 32 := by
  simp [sha256, wordBytes]

theorem wordBytes_lt (w : Nat) : ∀ b ∈ wordBytes w, b < 256 := by
  intro b hb
  simp only [wordBytes, List.mem_cons, List.not_mem_nil, or_false] at hb
  rcases hb with hb | hb | hb | hb <;> subst hb <;> omega

theorem sha256_bytes_lt (msg : List Nat) : ∀ b ∈ sha256 msg, b < 256 := by
  intro b hb
  simp only [sha256, List.mem_append] at hb
  rcases hb with ((((((hb | hb) | hb) | hb) | hb) | hb) | hb) | hb <;>
    exact wordBytes_lt _ b hb

theorem hexEncode_length (bs : List Nat) : (hexEncode bs).length = 2 * bs.length := by
  induction bs with
  | nil => rfl
  | cons b bs ih =>
    simp only [hexEncode, List.flatMap_cons] at *
    simp [byteHex, ih]
    omega

theorem hexDigit_mem (n : Nat) (hn : n < 16) : hexDigit n ∈ hextable.data := by
  interval_cases n <;> decide

theorem mem_hexEncode (bs : List Nat) (hlt : ∀ b ∈ bs, b < 256) :
    ∀ ch ∈ hexEncode bs, ch ∈ hextable.data := by
  intro ch hch
  rw [hexEncode, List.mem_flatMap] at hch
  obtain ⟨b, hb, hcb⟩ := hch
  have hblt := hlt b hb
  simp only [byteHex, List.mem_cons, List.not_mem_nil, or_false] at hcb
  rcases hcb with hcb | hcb <;> subst hcb <;> exact hexDigit_mem _ (by omega)

/-! ## Claims -/

/-- Claim C1, counterexample: the hash input does not incorporate the two
fields unambiguously — the distinct pairs ("ab","c") and ("a","bc")
yield the same fingerprint, contradicting the claim's own example. -/
theorem hash_distinct_pairs_collide :
    Hash "ab" "c" = Hash "a" "bc" ∧ (("ab", "c") : String × String) ≠ ("a", "bc") := by
  constructor
  · rw [hash_of_concat, hash_of_concat]
    rw [show ("ab" ++ "c" : String) = "a" ++ "bc" from by decide]
  · decide

/-- Claim C1 (amended): cache.Hash feeds the unseparated concatenation
prompt ++ model into SHA-256, so any two pairs whose concatenations
agree — such as ("ab","c") and ("a","bc") — yield the identical
fingerprint; only pairs with distinct concatenations can be told apart
(then colliding only with the negligible probability of a truncated
SHA-256 collision, a cryptographic property outside the model). -/
theorem hash_concat_ambiguity (p1 m1 p2 m2 : String) (h : p1 ++ m1 = p2 ++ m2) :
    Hash p1 m1 = Hash p2 m2 := by
  rw [hash_of_concat, hash_of_concat, h]

/-- Witness for hash_concat_ambiguity at the pairs ("ab","c"), ("a","bc"). -/
theorem hash_concat_ambiguity_w :
    ("ab" ++ "c" : String) = "a" ++ "bc" ∧ Hash "ab" "c" = Hash "a" "bc" :=
  ⟨by decide, hash_concat_ambiguity "ab" "c" "a" "bc" (by decide)⟩

/-- Claim C9: fingerprint computation is a pure function of the pair (its
embedding is a mathematical function, so repeated calls agree), and the
result always has exactly 16 characters, each drawn from the lowercase
hex alphabet — a truncation of the 64-character SHA-256 hex digest. -/
theorem hash_pure_hex16 (p m : String) :
    Hash p m = Hash p m ∧ (Hash p m).length = 16 ∧
      ∀ ch ∈ (Hash p m).data, ch ∈ hextable.data := by
  refine ⟨rfl, ?_, ?_⟩
  · show ((hexEncode (sha256 (strBytes p ++ strBytes m))).take 16).length = 16
    rw [List.length_take, hexEncode_length, sha256_length]
    decide
  · intro ch hch
    have hch2 : ch ∈ hexEncode (sha256 (strBytes p ++ strBytes m)) :=
      List.mem_of_mem_take hch
    exact mem_hexEncode _ (sha256_bytes_lt _) ch hch2

theorem replaceFile_hash (e : Entry) (f2 : String) :
    ({ e with outputFile := f2 } : Entry).hash = e.hash := rfl

theorem filter_hash_of_any_false (es : List Entry) (h : String)
    (hany : es.any (fun e => e.hash == h) = false) :
    es.filter (fun e => e.hash == h) = [] := by
  rw [List.filter_eq_nil_iff]
  intro a ha
  rw [List.any_eq_false] at hany
  exact hany a ha

theorem filter_map_replace (es : List Entry) (h f2 : String) :
    (es.map (fun e => if e.hash == h then { e with outputFile := f2 } else e)).filter
        (fun e => e.hash == h) =
      (es.filter (fun e => e.hash == h)).map (fun e => { e with outputFile := f2 }) := by
  rw [List.filter_map]
  have h1 : es.filter ((fun e => e.hash == h) ∘
      (fun e => if e.hash == h then { e with outputFile := f2 } else e)) =
      es.filter (fun e => e.hash == h) := by
    apply List.filter_congr
    intro e _
    show ((if e.hash == h then { e with outputFile := f2 } else e).hash == h) = (e.hash == h)
    cases heb : (e.hash == h) with
    | true => simp [heb]
    | false => simp [heb]
  rw [h1]
  apply List.map_congr_left
  intro e he
  have hpred := (List.mem_filter.mp he).2
  simp only [hpred, if_true]

theorem filter_hash_nodup_le (es : List Entry) (h : String)
    (hnd : (es.map (fun e => e.hash)).Nodup) :
    (es.filter (fun e => e.hash == h)).length ≤ 1 := by
  induction es with
  | nil => simp
  | cons e es ih =>
    rw [List.map_cons, List.nodup_cons] at hnd
    obtain ⟨hne, hnd2⟩ := hnd
    cases heb : (e.hash == h) with
    | false => rw [List.filter_cons_of_neg (by simp [heb])]; exact ih hnd2
    | true =>
      rw [List.filter_cons_of_pos (by simp [heb])]
      have hnil : es.filter (fun x => x.hash == h) = [] := by
        rw [List.filter_eq_nil_iff]
        intro a ha hab
        apply hne
        rw [beq_iff_eq] at heb hab
        rw [heb, ← hab]
        exact List.mem_map_of_mem _ ha
      rw [hnil]
      simp

theorem filter_hash_pos_of_any (es : List Entry) (h : String)
    (hany : es.any (fun e => e.hash == h) = true) :
    0 < (es.filter (fun e => e.hash == h)).length := by
  rw [List.any_eq_true] at hany
  obtain ⟨x, hx, hxh⟩ := hany
  have : x ∈ es.filter (fun e => e.hash == h) := List.mem_filter.mpr ⟨hx, hxh⟩
  exact List.length_pos.mpr (List.ne_nil_of_mem this)

/-- After one upsert, exactly one entry carries the pair's fingerprint
(given that the starting store has no duplicate fingerprints). -/
theorem countHash_upsert (c : Cache) (p m f : String) (t : Nat)
    (hnd : (c.entries.map (fun e => e.hash)).Nodup) :
    countHash (c.Upsert p m f t) (Hash p m) = 1 := by
  rw [Cache.Upsert, countHash]
  cases hany : c.entries.any (fun e => e.hash == Hash p m) with
  | false =>
    simp only [hany, Bool.false_eq_true, if_false]
    rw [List.filter_append, filter_hash_of_any_false _ _ hany]
    simp
  | true =>
    simp only [hany, if_true]
    rw [filter_map_replace, List.length_map]
    have h1 := filter_hash_nodup_le c.entries (Hash p m) hnd
    have h2 := filter_hash_pos_of_any c.entries (Hash p m) hany
    omega

/-- Claim C2: registering a result for the same (prompt, model) pair a
second time — with any output file names — leaves exactly one entry for
Hash(prompt, model) in the store, and looking that fingerprint up yields
an entry carrying the later registration's output file name.  (The store
is assumed free of duplicate fingerprints to begin with, the invariant
upsert maintains; Cache.Upsert is modelled from the spec because its
definition is not among the provided sources.) -/
theorem upsert_twice_single_entry (c : Cache) (p m f1 f2 : String) (t1 t2 : Nat)
    (hnd : (c.entries.map (fun e => e.hash)).Nodup) :
    countHash ((c.Upsert p m f1 t1).Upsert p m f2 t2) (Hash p m) = 1 ∧
      ∃ e, ((c.Upsert p m f1 t1).Upsert p m f2 t2).Lookup (Hash p m) = some e ∧
        e.outputFile = f2 := by
  set c1 := c.Upsert p m f1 t1 with hc1def
  have hc1 : countHash c1 (Hash p m) = 1 := countHash_upsert c p m f1 t1 hnd
  have hany1 : c1.entries.any (fun e => e.hash == Hash p m) = true := by
    by_contra hcon
    rw [Bool.not_eq_true] at hcon
    have := filter_hash_of_any_false c1.entries (Hash p m) hcon
    rw [countHash, this] at hc1
    simp at hc1
  have hc2ent : (c1.Upsert p m f2 t2).entries =
      c1.entries.map (fun e => if e.hash == Hash p m then { e with outputFile := f2 } else e) := by
    rw [Cache.Upsert]
    simp only [hany1, if_true]
  constructor
  · rw [countHash, hc2ent, filter_map_replace, List.length_map]
    rw [countHash] at hc1
    exact hc1
  · have hpos : 0 < ((c1.Upsert p m f2 t2).entries.filter (fun e => e.hash == Hash p m)).length := by
      rw [hc2ent, filter_map_replace, List.length_map]
      rw [countHash] at hc1
      omega
    have hne : (c1.Upsert p m f2 t2).entries.filter (fun e => e.hash == Hash p m) ≠ [] :=
      List.length_pos.mp hpos
    obtain ⟨x, hx⟩ := List.exists_mem_of_ne_nil _ hne
    have hxmem := (List.mem_filter.mp hx).1
    have hxh := (List.mem_filter.mp hx).2
    have hsome : ((c1.Upsert p m f2 t2).Lookup (Hash p m)).isSome := by
      rw [Cache.Lookup, List.find?_isSome]
      exact ⟨x, hxmem, hxh⟩
    obtain ⟨e, he⟩ := Option.isSome_iff_exists.mp hsome
    refine ⟨e, he, ?_⟩
    rw [Cache.Lookup] at he
    have hpred := List.find?_some he
    have hmem : e ∈ (c1.Upsert p m f2 t2).entries := List.mem_of_find?_eq_some he
    have hfil : e ∈ (c1.Upsert p m f2 t2).entries.filter (fun x => x.hash == Hash p m) :=
      List.mem_filter.mpr ⟨hmem, hpred⟩
    rw [hc2ent, filter_map_replace] at hfil
    obtain ⟨y, _, hy⟩ := List.mem_map.mp hfil
    rw [← hy]

/-- Witness for upsert_twice_single_entry at the empty store. -/
theorem upsert_twice_single_entry_w :
    ((⟨[]⟩ : Cache).entries.map (fun e => e.hash)).Nodup ∧
      (countHash (((⟨[]⟩ : Cache).Upsert "a" "m" "x" 0).Upsert "a" "m" "y" 1) (Hash "a" "m") = 1 ∧
        ∃ e, (((⟨[]⟩ : Cache).Upsert "a" "m" "x" 0).Upsert "a" "m" "y" 1).Lookup (Hash "a" "m") = some e ∧
          e.outputFile = "y") :=
  ⟨by decide, upsert_twice_single_entry ⟨[]⟩ "a" "m" "x" "y" 0 1 (by decide)⟩

/-- Claim C3: for every fingerprint, the lookup path reports a cache hit
exactly when an entry with that fingerprint exists in the loaded cache
and the output file it references currently exists on disk; in every
other case — including a live entry whose backing file was deleted —
the status is pending (regeneration), the only other outcome the lookup
path has, so a stale entry is a silent miss and never an error. -/
theorem cache_hit_iff (c : Cache) (fs : List String) (outDir h : String) :
    statusFor false c fs outDir h = .cached ↔
      ∃ e, c.Lookup h = some e ∧ pathJoin outDir e.outputFile ∈ fs := by
  rw [statusFor]
  simp only [Bool.false_eq_true, if_false]
  cases hl : c.Lookup h with
  | none => simp
  | some e =>
    by_cases hf : pathJoin outDir e.outputFile ∈ fs
    · simp [hf]
    · simp only [hf, if_false]
      constructor
      · intro hcon; exact absurd hcon (by simp)
      · rintro ⟨e2, he2, hf2⟩
        rw [Option.some_inj] at he2
        subst he2
        exact absurd hf2 hf

/-- Claim C6: in every state the pool scheduler can reach from the start
of the batch (all items queued, none running), at most C generator
invocations are in flight — dispatching requires a free semaphore slot —
and the concurrency bound defaults to 3. -/
theorem pool_concurrency_bound (C : Nat) (hC : 1 ≤ C) (n : Nat) (s : PoolState)
    (hs : PoolReachable C ⟨n, 0, 0⟩ s) : s.running ≤ C ∧ defaultConcurrency = 3 := by
  refine ⟨?_, rfl⟩
  clear hC
  induction hs with
  | refl => exact Nat.zero_le C
  | step s2 t _ hstep ih =>
    cases hstep with
    | dispatch hq hr => simpa using hr
    | finish hr => simp; omega

/-- Claim C4: with a pending set attempted (at least one item to
generate and the final cache save succeeding), the batch exit code is
ExitSuccess (0) when no pending item errors, ExitTotalFail (2) when all
of them error and ExitPartialFail (1) when some but not all error, and
every pending item is invoked exactly once; an unreadable or malformed
input file and a file with zero prompts exit with ExitInvalidInput (3)
with no invocation attempted. -/
theorem batch_exit_classification (dryRun noCache : Bool) (c : Cache) (fs : List String)
    (outDir d : String) (gen : String → String → Bool) (saveOk : Bool) (ps : List PromptEntry)
    (htg : (categorize noCache c fs outDir d ps).toGenerate ≠ []) :
    (runBatchModel dryRun noCache (.error ()) c fs outDir d gen saveOk).exit = ExitInvalidInput ∧
    (runBatchModel dryRun noCache (.error ()) c fs outDir d gen saveOk).effects.invoked = 0 ∧
    (runBatchModel dryRun noCache (.ok []) c fs outDir d gen saveOk).exit = ExitInvalidInput ∧
    (runBatchModel dryRun noCache (.ok []) c fs outDir d gen saveOk).effects.invoked = 0 ∧
    (runBatchModel false noCache (.ok ps) c fs outDir d gen true).effects.invoked =
      (categorize noCache c fs outDir d ps).toGenerate.length ∧
    (runBatchModel false noCache (.ok ps) c fs outDir d gen true).exit =
      (if ((categorize noCache c fs outDir d ps).toGenerate.filter
            (fun q => !(gen q.prompt q.model))).length = 0 then ExitSuccess
       else if ((categorize noCache c fs outDir d ps).toGenerate.filter
            (fun q => !(gen q.prompt q.model))).length =
              (categorize noCache c fs outDir d ps).toGenerate.length then ExitTotalFail
       else ExitPartialFail) := by
  have hps : ps ≠ [] := by
    intro hnil
    apply htg
    rw [hnil]
    rfl
  have hempty : ps.isEmpty = false := by
    cases ps with
    | nil => exact absurd rfl hps
    | cons a t => rfl
  have htgE : (categorize noCache c fs outDir d ps).toGenerate.isEmpty = false := by
    cases hcat : (categorize noCache c fs outDir d ps).toGenerate with
    | nil => exact absurd hcat htg
    | cons a t => rfl
  refine ⟨rfl, rfl, rfl, rfl, ?_, ?_⟩
  · simp only [runBatchModel, hempty, Bool.false_eq_true, if_false, htgE, Bool.not_true]
    split_ifs <;> rfl
  · simp only [runBatchModel, hempty, Bool.false_eq_true, if_false, htgE, Bool.not_true]
    split_ifs <;> simp_all [ExitSuccess, ExitPartialFail, ExitTotalFail]

/-- Witness for batch_exit_classification: empty cache, cache bypassed,
one prompt, every generation failing. -/
theorem batch_exit_classification_w :
    (categorize true ⟨[]⟩ [] "o" "m" [⟨"a", ""⟩]).toGenerate ≠ [] ∧
      (runBatchModel false true (.ok [⟨"a", ""⟩]) ⟨[]⟩ [] "o" "m" (fun _ _ => false) true).exit =
        (if ((categorize true ⟨[]⟩ [] "o" "m" [⟨"a", ""⟩]).toGenerate.filter
              (fun q => !(false : Bool))).length = 0 then ExitSuccess
         else if ((categorize true ⟨[]⟩ [] "o" "m" [⟨"a", ""⟩]).toGenerate.filter
              (fun q => !(false : Bool))).length =
                (categorize true ⟨[]⟩ [] "o" "m" [⟨"a", ""⟩]).toGenerate.length then ExitTotalFail
         else ExitPartialFail) :=
  ⟨by decide,
    (batch_exit_classification false true ⟨[]⟩ [] "o" "m" (fun _ _ => false) true [⟨"a", ""⟩]
      (by decide)).2.2.2.2.2⟩

/-- Claim C8, counterexample: a single-prompt run in JSON mode whose
generation step errors returns nil after printing the error record, so
the process exits ExitSuccess (0) — the error is not fatal for the
command in JSON mode, contradicting the claim's "regardless of output
mode". -/
theorem single_json_gen_error_exit_zero :
    (runGenerateModel false true true ⟨[]⟩ [] "out" "m" "p" GenOutcome.genFail true).exit =
      ExitSuccess ∧ ExitSuccess = 0 := by
  exact ⟨rfl, rfl⟩

/-- Claim C8 (amended): when a single-prompt invocation misses the cache
and its generation or download step errors, the run is fatal in
human-readable mode — it exits ExitPartialFail, a non-zero code — while
in JSON mode the failure is emitted as a structured record with status
error and the process exits ExitSuccess (0). -/
theorem single_gen_error_exits (noCache : Bool) (c : Cache) (fs : List String)
    (outDir model prompt : String) (saveOk : Bool)
    (hmiss : statusFor noCache c fs outDir (Hash prompt model) = .pending) :
    (runGenerateModel false false noCache c fs outDir model prompt .genFail saveOk).exit =
        ExitPartialFail ∧
      (runGenerateModel false false noCache c fs outDir model prompt .genFail saveOk).exit ≠
        ExitSuccess ∧
      (runGenerateModel false true noCache c fs outDir model prompt .genFail saveOk).exit =
        ExitSuccess ∧
      (runGenerateModel false true noCache c fs outDir model prompt .genFail saveOk).emitted =
        ["error"] := by
  simp only [runGenerateModel, hmiss]
  refine ⟨rfl, by decide, rfl, rfl⟩

/-- Witness for single_gen_error_exits with the cache bypassed. -/
theorem single_gen_error_exits_w :
    statusFor true ⟨[]⟩ [] "o" (Hash "p" "m") = .pending ∧
      ((runGenerateModel false false true ⟨[]⟩ [] "o" "m" "p" .genFail true).exit =
          ExitPartialFail ∧
        (runGenerateModel false false true ⟨[]⟩ [] "o" "m" "p" .genFail true).exit ≠
          ExitSuccess ∧
        (runGenerateModel false true true ⟨[]⟩ [] "o" "m" "p" .genFail true).exit =
          ExitSuccess ∧
        (runGenerateModel false true true ⟨[]⟩ [] "o" "m" "p" .genFail true).emitted =
          ["error"]) :=
  ⟨by decide, single_gen_error_exits true ⟨[]⟩ [] "o" "m" "p" true (by decide)⟩

/-- Unfolding of the categorize loop from an arbitrary accumulator: the
queue extends by the resolved pending items, the dry-run lines by one
line per prompt, and the cached count by the number of hits. -/
theorem categorize_foldl (noCache : Bool) (c : Cache) (fs : List String) (outDir d : String)
    (ps : List PromptEntry) : ∀ st : CatState,
    ps.foldl (catStep noCache c fs outDir d) st =
      ⟨st.toGenerate ++ (ps.filter (fun p => plannedStatus noCache c fs outDir d p == .pending)).map
          (fun p => ⟨p.prompt, resolveModel d p.model⟩),
       st.dryPrompts ++
         ps.map (fun p => (p.prompt, resolveModel d p.model, plannedStatus noCache c fs outDir d p)),
       st.cachedCount +
         (ps.filter (fun p => plannedStatus noCache c fs outDir d p == .cached)).length⟩ := by
  induction ps with
  | nil => intro st; cases st; simp
  | cons p ps ih =>
    intro st
    rw [List.foldl_cons, ih]
    cases hst : plannedStatus noCache c fs outDir d p with
    | cached =>
      have hst2 : statusFor noCache c fs outDir (Hash p.prompt (resolveModel d p.model)) =
          ItemStatus.cached := hst
      simp [catStep, hst2, hst, List.filter_cons, List.append_assoc]
      omega
    | pending =>
      have hst2 : statusFor noCache c fs outDir (Hash p.prompt (resolveModel d p.model)) =
          ItemStatus.pending := hst
      simp [catStep, hst2, hst, List.filter_cons, List.append_assoc]

/-- The partition step in closed form. -/
theorem categorize_spec (noCache : Bool) (c : Cache) (fs : List String) (outDir d : String)
    (ps : List PromptEntry) :
    categorize noCache c fs outDir d ps =
      ⟨(ps.filter (fun p => plannedStatus noCache c fs outDir d p == .pending)).map
          (fun p => ⟨p.prompt, resolveModel d p.model⟩),
       ps.map (fun p => (p.prompt, resolveModel d p.model, plannedStatus noCache c fs outDir d p)),
       (ps.filter (fun p => plannedStatus noCache c fs outDir d p == .cached)).length⟩ := by
  rw [categorize, categorize_foldl]
  simp

/-- Claim C10: a dry run — single-prompt or batch — performs no
generator invocation, creates no output directory, writes no image file
and never saves the cache file (its effects are cleanEffects; the cache
read is the one untracked effect), exits successfully, and reports the
planned status of each prompt (cached or pending) together with the
to-generate and cached counts. -/
theorem dry_run_frame (jsonMode noCache : Bool) (c : Cache) (fs : List String)
    (outDir model prompt d : String) (outcome : GenOutcome) (saveOk : Bool)
    (input : Except Unit (List PromptEntry)) (gen : String → String → Bool)
    (ps : List PromptEntry) (hps : ps ≠ []) :
    (runGenerateModel true jsonMode noCache c fs outDir model prompt outcome saveOk).effects =
        cleanEffects ∧
      (runGenerateModel true jsonMode noCache c fs outDir model prompt outcome saveOk).exit =
        ExitSuccess ∧
      (runGenerateModel true jsonMode noCache c fs outDir model prompt outcome saveOk).dryStatus =
        some (statusFor noCache c fs outDir (Hash prompt model)) ∧
      (runBatchModel true noCache input c fs outDir d gen saveOk).effects = cleanEffects ∧
      (runBatchModel true noCache (.ok ps) c fs outDir d gen saveOk).exit = ExitSuccess ∧
      (runBatchModel true noCache (.ok ps) c fs outDir d gen saveOk).dryReport =
        some ⟨(ps.filter (fun p => plannedStatus noCache c fs outDir d p == .pending)).length,
              (ps.filter (fun p => plannedStatus noCache c fs outDir d p == .cached)).length,
              ps.map (fun p =>
                (p.prompt, resolveModel d p.model, plannedStatus noCache c fs outDir d p))⟩ := by
  have hempty : ps.isEmpty = false := by
    cases ps with
    | nil => exact absurd rfl hps
    | cons a t => rfl
  refine ⟨rfl, rfl, rfl, ?_, ?_, ?_⟩
  · cases input with
    | error e => rfl
    | ok qs =>
      simp only [runBatchModel]
      split_ifs <;> rfl
  · simp only [runBatchModel, hempty, Bool.false_eq_true, if_false, if_true]
  · simp only [runBatchModel, hempty, Bool.false_eq_true, if_false, if_true]
    rw [categorize_spec]
    simp [List.length_map]

/-- Witness for dry_run_frame at a one-prompt input. -/
theorem dry_run_frame_w :
    ([⟨"a", ""⟩] : List PromptEntry) ≠ [] ∧
      ((runGenerateModel true false false ⟨[]⟩ [] "o" "m" "p" .ok true).effects = cleanEffects ∧
        (runGenerateModel true false false ⟨[]⟩ [] "o" "m" "p" .ok true).exit = ExitSuccess ∧
        (runGenerateModel true false false ⟨[]⟩ [] "o" "m" "p" .ok true).dryStatus =
          some (statusFor false ⟨[]⟩ [] "o" (Hash "p" "m")) ∧
        (runBatchModel true false (.error ()) ⟨[]⟩ [] "o" "m" (fun _ _ => true) true).effects =
          cleanEffects ∧
        (runBatchModel true false (.ok [⟨"a", ""⟩]) ⟨[]⟩ [] "o" "m" (fun _ _ => true) true).exit =
          ExitSuccess ∧
        (runBatchModel true false (.ok [⟨"a", ""⟩]) ⟨[]⟩ [] "o" "m" (fun _ _ => true) true).dryReport =
          some ⟨(([⟨"a", ""⟩] : List PromptEntry).filter
                  (fun p => plannedStatus false ⟨[]⟩ [] "o" "m" p == .pending)).length,
                (([⟨"a", ""⟩] : List PromptEntry).filter
                  (fun p => plannedStatus false ⟨[]⟩ [] "o" "m" p == .cached)).length,
                ([⟨"a", ""⟩] : List PromptEntry).map (fun p =>
                  (p.prompt, resolveModel "m" p.model, plannedStatus false ⟨[]⟩ [] "o" "m" p))⟩) :=
  ⟨by decide,
    dry_run_frame false false ⟨[]⟩ [] "o" "m" "p" "m" .ok true (.error ()) (fun _ _ => true)
      [⟨"a", ""⟩] (by decide)⟩

/-- The object probing loop succeeds exactly when some probed key holds
a string value. -/
theorem extractFromObj_ok_iff (fields : List (String × RepOutput)) (ks : List String) :
    (∃ s, extractFromObj fields ks = .ok s) ↔
      ∃ k ∈ ks, ∃ s, objLookup fields k = some (RepOutput.str s) := by
  induction ks with
  | nil => simp [extractFromObj]
  | cons k ks ih =>
    show (∃ s, (match objLookup fields k with
      | some (RepOutput.str s) => Except.ok s
      | _ => extractFromObj fields ks) = .ok s) ↔ _
    cases hl : objLookup fields k with
    | none => simp [hl, ih]
    | some v =>
      cases v with
      | str s => simp [hl]
      | list l => simp [hl, ih]
      | obj o => simp [hl, ih]
      | other => simp [hl, ih]

/-- Claim C5: extractImageURL returns a reference string exactly when
the model output has one of the recognized shapes — a direct string, a
non-empty list whose authoritative first element is recognized, or an
object with one of the known field names (url, image, output, uri)
holding a string — and returns an error (never a reference) on an empty
list, an object with none of the known fields holding a string, and
every other shape. -/
theorem extract_image_url_iff (o : RepOutput) :
    (∃ s, extractImageURL o = .ok s) ↔ SpecRecognized o := by
  induction o using extractImageURL.induct with
  | case1 s =>
    simp only [extractImageURL]
    exact ⟨fun _ => .direct s, fun _ => ⟨s, rfl⟩⟩
  | case2 =>
    simp only [extractImageURL]
    constructor
    · rintro ⟨s, hs⟩
      exact absurd hs (by simp)
    · intro h
      cases h
  | case3 v rest ih =>
    simp only [extractImageURL]
    constructor
    · intro h
      exact .firstOfList v rest (ih.mp h)
    · intro h
      cases h with
      | firstOfList _ _ hv => exact ih.mpr hv
  | case4 fields =>
    simp only [extractImageURL]
    rw [extractFromObj_ok_iff]
    constructor
    · rintro ⟨k, hk, s, hl⟩
      exact .knownField fields k s hk hl
    · intro h
      cases h with
      | knownField _ k s hk hl => exact ⟨k, hk, s, hl⟩
  | case5 =>
    simp only [extractImageURL]
    constructor
    · rintro ⟨s, hs⟩
      exact absurd hs (by simp)
    · intro h
      cases h

/-- Counting invariants of the validation loop: each empty prompt adds
one error and one to the empty count, and each non-empty prompt adds
either one warning or one seen entry. -/
theorem vloop_counts (d : String) (ps : List PromptEntry) : ∀ st : VState,
    ((ps.foldl (vStep d) st).errors.length =
        st.errors.length + (ps.filter (fun p => p.prompt == "")).length) ∧
      ((ps.foldl (vStep d) st).empty =
        st.empty + (ps.filter (fun p => p.prompt == "")).length) ∧
      ((ps.foldl (vStep d) st).warnings.length + (ps.foldl (vStep d) st).seen.length =
        st.warnings.length + st.seen.length +
          (ps.filter (fun p => !(p.prompt == ""))).length) := by
  induction ps with
  | nil => intro st; simp
  | cons p ps ih =>
    intro st
    rw [List.foldl_cons]
    by_cases hp : p.prompt = ""
    · have hv : vStep d st p =
          { st with errors := st.errors ++ [emptyMsg (st.idx + 1)],
                    empty := st.empty + 1, idx := st.idx + 1 } := by
        simp [vStep, hp]
      rw [hv]
      obtain ⟨h1, h2, h3⟩ :=
        ih { st with errors := st.errors ++ [emptyMsg (st.idx + 1)],
                     empty := st.empty + 1, idx := st.idx + 1 }
      refine ⟨?_, ?_, ?_⟩
      · rw [h1]; simp [List.filter_cons, hp]; omega
      · rw [h2]; simp [List.filter_cons, hp]; omega
      · rw [h3]; simp [List.filter_cons, hp]
    · cases hf : st.seen.find? (fun q => q.1 == vKey d p) with
      | some prev =>
        have hv : vStep d st p =
            { st with warnings := st.warnings ++ [dupMsg (st.idx + 1) prev.2],
                      idx := st.idx + 1 } := by
          simp [vStep, hp, hf]
        rw [hv]
        obtain ⟨h1, h2, h3⟩ :=
          ih { st with warnings := st.warnings ++ [dupMsg (st.idx + 1) prev.2],
                       idx := st.idx + 1 }
        refine ⟨?_, ?_, ?_⟩
        · rw [h1]; simp [List.filter_cons, hp]
        · rw [h2]; simp [List.filter_cons, hp]
        · rw [h3]; simp [List.filter_cons, hp]; omega
      | none =>
        have hv : vStep d st p =
            { st with seen := st.seen ++ [(vKey d p, st.idx + 1)], idx := st.idx + 1 } := by
          simp [vStep, hp, hf]
        rw [hv]
        obtain ⟨h1, h2, h3⟩ :=
          ih { st with seen := st.seen ++ [(vKey d p, st.idx + 1)], idx := st.idx + 1 }
        refine ⟨?_, ?_, ?_⟩
        · rw [h1]; simp [List.filter_cons, hp]
        · rw [h2]; simp [List.filter_cons, hp]
        · rw [h3]; simp [List.filter_cons, hp]; omega

/-- The seen map of the validation loop stays duplicate-free and holds
exactly the join-keys of the non-empty prompts processed so far. -/
theorem vloop_seen (d : String) (ps : List PromptEntry) : ∀ st : VState,
    (st.seen.map Prod.fst).Nodup →
      (((ps.foldl (vStep d) st).seen.map Prod.fst).Nodup ∧
        ∀ k, k ∈ (ps.foldl (vStep d) st).seen.map Prod.fst ↔
          (k ∈ st.seen.map Prod.fst ∨
            k ∈ (ps.filter (fun p => !(p.prompt == ""))).map (vKey d))) := by
  induction ps with
  | nil =>
    intro st hnd
    exact ⟨hnd, fun k => by simp⟩
  | cons p ps ih =>
    intro st hnd
    rw [List.foldl_cons]
    by_cases hp : p.prompt = ""
    · have hv : vStep d st p =
          { st with errors := st.errors ++ [emptyMsg (st.idx + 1)],
                    empty := st.empty + 1, idx := st.idx + 1 } := by
        simp [vStep, hp]
      rw [hv]
      obtain ⟨h1, h2⟩ :=
        ih { st with errors := st.errors ++ [emptyMsg (st.idx + 1)],
                     empty := st.empty + 1, idx := st.idx + 1 } hnd
      refine ⟨h1, fun k => ?_⟩
      rw [h2]
      simp [List.filter_cons, hp]
    · cases hf : st.seen.find? (fun q => q.1 == vKey d p) with
      | some prev =>
        have hv : vStep d st p =
            { st with warnings := st.warnings ++ [dupMsg (st.idx + 1) prev.2],
                      idx := st.idx + 1 } := by
          simp [vStep, hp, hf]
        rw [hv]
        obtain ⟨h1, h2⟩ :=
          ih { st with warnings := st.warnings ++ [dupMsg (st.idx + 1) prev.2],
                       idx := st.idx + 1 } hnd
        have hkey : vKey d p ∈ st.seen.map Prod.fst := by
          have hprev := List.find?_some hf
          have hmem := List.mem_of_find?_eq_some hf
          have heq : prev.1 = vKey d p := eq_of_beq hprev
          rw [← heq]
          exact List.mem_map_of_mem Prod.fst hmem
        refine ⟨h1, fun k => ?_⟩
        rw [h2]
        rw [List.filter_cons_of_pos (by simp [hp]), List.map_cons]
        constructor
        · rintro (h | h)
          · exact Or.inl h
          · exact Or.inr (List.mem_cons_of_mem _ h)
        · rintro (h | h)
          · exact Or.inl h
          · rcases List.mem_cons.mp h with h2b | h2b
            · rw [h2b]; exact Or.inl hkey
            · exact Or.inr h2b
      | none =>
        have hv : vStep d st p =
            { st with seen := st.seen ++ [(vKey d p, st.idx + 1)], idx := st.idx + 1 } := by
          simp [vStep, hp, hf]
        rw [hv]
        have hnotin : vKey d p ∉ st.seen.map Prod.fst := by
          intro hmem
          obtain ⟨q, hq, hq2⟩ := List.mem_map.mp hmem
          have hq3 := List.find?_eq_none.mp hf q hq
          apply hq3
          simp [hq2]
        have hnd2 : ((st.seen ++ [(vKey d p, st.idx + 1)]).map Prod.fst).Nodup := by
          rw [List.map_append, List.nodup_append]
          refine ⟨hnd, by simp, ?_⟩
          intro a ha hb
          simp only [List.map_cons, List.map_nil, List.mem_cons, List.not_mem_nil,
            or_false] at hb
          rw [hb] at ha
          exact hnotin ha
        obtain ⟨h1, h2⟩ :=
          ih { st with seen := st.seen ++ [(vKey d p, st.idx + 1)], idx := st.idx + 1 } hnd2
        refine ⟨h1, fun k => ?_⟩
        rw [h2]
        rw [List.filter_cons_of_pos (by simp [hp]), List.map_cons]
        simp only [List.map_append, List.mem_append, List.map_cons, List.map_nil,
          List.mem_cons, List.not_mem_nil, or_false]
        tauto

/-- Claim C7, counterexample: duplicate detection joins prompt and model
with a bare "|", so the two distinct non-empty pairs ("a|b", "c") and
("a", "b|c") produce the same join-key — the second is flagged as a
duplicate warning and unique is 1, although the file holds two distinct
(prompt, model) pairs and no repeated pair. -/
theorem validate_delimiter_counterexample :
    (⟨"a|b", "c"⟩ : PromptEntry) ≠ ⟨"a", "b|c"⟩ ∧
      (validate "m" [⟨"a|b", "c"⟩, ⟨"a", "b|c"⟩]).warnings.length = 1 ∧
      (validate "m" [⟨"a|b", "c"⟩, ⟨"a", "b|c"⟩]).summary.unique = 1 ∧
      (validate "m" [⟨"a|b", "c"⟩, ⟨"a", "b|c"⟩]).errors.length = 0 := by
  decide

/-- Claim C7 (amended): for a non-empty batch input, validation reports
each empty prompt as exactly one error and each repeated join-key
(prompt + "|" + resolved model) as exactly one warning, never an error;
the summary satisfies total = unique + duplicates + empty with unique
counting the distinct join-keys of the non-empty prompts (this equals
the number of distinct (prompt, model) pairs except when a "|" in the
fields makes the joined key ambiguous); in particular the file with one
empty prompt and one duplicated pair yields exactly one error, exactly
one warning and summary (4, 2, 1, 1). -/
theorem validate_report (d : String) (ps : List PromptEntry) (hps : ps ≠ []) :
    (validate d ps).summary.total =
        (validate d ps).summary.unique + (validate d ps).summary.duplicates +
          (validate d ps).summary.empty ∧
      (validate d ps).errors.length = (validate d ps).summary.empty ∧
      (validate d ps).warnings.length = (validate d ps).summary.duplicates ∧
      (validate d ps).summary.unique =
        ((ps.filter (fun p => !(p.prompt == ""))).map (vKey d)).toFinset.card ∧
      ((validate "m" [⟨"a cat", ""⟩, ⟨"", ""⟩, ⟨"a cat", ""⟩, ⟨"a dog", ""⟩]).errors.length = 1 ∧
        (validate "m" [⟨"a cat", ""⟩, ⟨"", ""⟩, ⟨"a cat", ""⟩, ⟨"a dog", ""⟩]).warnings.length = 1 ∧
        (validate "m" [⟨"a cat", ""⟩, ⟨"", ""⟩, ⟨"a cat", ""⟩, ⟨"a dog", ""⟩]).summary =
          ⟨4, 2, 1, 1⟩) := by
  have hempty : ps.isEmpty = false := by
    cases ps with
    | nil => exact absurd rfl hps
    | cons a t => rfl
  obtain ⟨h1, h2, h3⟩ := vloop_counts d ps ⟨[], [], [], 0, 0⟩
  obtain ⟨h4, h5⟩ := vloop_seen d ps ⟨[], [], [], 0, 0⟩ (by simp)
  have hEN : (ps.filter (fun p => p.prompt == "")).length +
      (ps.filter (fun p => !(p.prompt == ""))).length = ps.length :=
    (List.length_eq_length_filter_add (fun p : PromptEntry => p.prompt == "")).symm
  have hval : validate d ps =
      { valid := (ps.foldl (vStep d) ⟨[], [], [], 0, 0⟩).errors.isEmpty
        errors := (ps.foldl (vStep d) ⟨[], [], [], 0, 0⟩).errors
        warnings := (ps.foldl (vStep d) ⟨[], [], [], 0, 0⟩).warnings
        summary := ⟨ps.length, (ps.foldl (vStep d) ⟨[], [], [], 0, 0⟩).seen.length,
          ps.length - (ps.foldl (vStep d) ⟨[], [], [], 0, 0⟩).seen.length -
            (ps.foldl (vStep d) ⟨[], [], [], 0, 0⟩).empty,
          (ps.foldl (vStep d) ⟨[], [], [], 0, 0⟩).empty⟩ } := by
    rw [validate]
    simp only [hempty, Bool.false_eq_true, if_false]
  simp only [hval, List.length_nil, Nat.zero_add, List.length, Nat.add_zero] at *
  have hU : (ps.foldl (vStep d) ⟨[], [], [], 0, 0⟩).seen.length =
      ((ps.filter (fun p => !(p.prompt == ""))).map (vKey d)).toFinset.card := by
    have hlen : ((ps.foldl (vStep d) ⟨[], [], [], 0, 0⟩).seen.map Prod.fst).toFinset.card =
        ((ps.foldl (vStep d) ⟨[], [], [], 0, 0⟩).seen.map Prod.fst).length :=
      List.toFinset_card_of_nodup h4
    have hset : ((ps.foldl (vStep d) ⟨[], [], [], 0, 0⟩).seen.map Prod.fst).toFinset =
        ((ps.filter (fun p => !(p.prompt == ""))).map (vKey d)).toFinset := by
      apply Finset.ext
      intro k
      rw [List.mem_toFinset, List.mem_toFinset, h5 k]
      simp
    rw [← hset, hlen, List.length_map]
  refine ⟨?_, ?_, ?_, ?_, by decide⟩
  · omega
  · simp only [h1, h2]
  · omega
  · exact hU

/-- Witness for validate_report at the spec's example file. -/
theorem validate_report_w :
    ([⟨"a cat", ""⟩, ⟨"", ""⟩, ⟨"a cat", ""⟩, ⟨"a dog", ""⟩] : List PromptEntry) ≠ [] ∧
      (validate "m" [⟨"a cat", ""⟩, ⟨"", ""⟩, ⟨"a cat", ""⟩, ⟨"a dog", ""⟩]).errors.length =
        (validate "m" [⟨"a cat", ""⟩, ⟨"", ""⟩, ⟨"a cat", ""⟩, ⟨"a dog", ""⟩]).summary.empty :=
  ⟨by decide,
    (validate_report "m" [⟨"a cat", ""⟩, ⟨"", ""⟩, ⟨"a cat", ""⟩, ⟨"a dog", ""⟩]
      (by decide)).2.1⟩

/-- Witness for pool_concurrency_bound: with C = 2 and 5 queued items,
the state after two dispatches has 2 running, within the bound. -/
theorem pool_concurrency_bound_w :
    1 ≤ 2 ∧ ((⟨3, 2, 0⟩ : PoolState).running ≤ 2 ∧ defaultConcurrency = 3) :=
  ⟨by decide,
    pool_concurrency_bound 2 (by decide) 5 ⟨3, 2, 0⟩
      (PoolReachable.step _ _
        (PoolReachable.step _ _ PoolReachable.refl
          (PoolStep.dispatch ⟨5, 0, 0⟩ (by decide) (by decide)))
        (PoolStep.dispatch ⟨4, 1, 0⟩ (by decide) (by decide)))⟩

end RI
